import Mathlib

/-!
Verification of the Jacobi solver for the discrete 2D Poisson equation
(poisson_openmp.c).

The C program is embedded shallowly. The flat double arrays of size
(N+2)*(M+2) become functions from flat offsets to rationals, accessed at
offset i*(M+2)+j exactly as in the source. The OpenMP loops write disjoint
entries per iteration, so each loop becomes a pointwise functional update
over the same index set, and the OpenMP sum reduction becomes a sum over
the interior index set. The while loop of jacobi_poisson becomes a
fuel-indexed recursion whose guard is the loop condition !conv && k<maxit;
fuel maxit is enough for the loop to reach a state where the guard fails,
since k starts at 0 and increases by 1 per pass. Floating-point doubles
are idealized as exact rationals; the single transcendental operation of
the program, sqrt in the stopping test sqrt(s) < tol, is embedded through
the equivalent comparison s < tol*tol to keep the development computable,
and the equivalence with the literal test Real.sqrt s < tol is proved in
convTest_eq_sqrt.
-/

/-- Offset p is an interior position of the (N+2)*(M+2) grid: it decodes
to the pair (i, j) = (p / (M+2), p % (M+2)) in row-major order with
leading dimension ld = M+2, and 1 <= i <= N, 1 <= j <= M, the index
ranges of the doubly nested loops of the source. -/
def interiorIdx (N M p : ℕ) : Prop :=
  1 ≤ p / (M+2) ∧ p / (M+2) ≤ N ∧ 1 ≤ p % (M+2) ∧ p % (M+2) ≤ M

instance (N M p : ℕ) : Decidable (interiorIdx N M p) := by
  unfold interiorIdx
  infer_instance

/-- One Jacobi step, `jacobi_step` in the source (lines 18-27): every
interior entry of t is overwritten with
(b[i*ld+j] + x[(i+1)*ld+j] + x[(i-1)*ld+j] + x[i*ld+(j+1)] + x[i*ld+(j-1)])/4
with ld = M+2; all other entries of t keep their previous values. The
loop iterations write disjoint entries and read only x and b, so the
doubly nested parallel loop is a pointwise update. -/
def jacobi_step (N M : ℕ) (x b t : ℕ → ℚ) : ℕ → ℚ :=
  fun p =>
    let ld := M + 2
    let i := p / ld
    let j := p % ld
    if interiorIdx N M p then
      (b (i*ld+j) + x ((i+1)*ld+j) + x ((i-1)*ld+j) + x (i*ld+(j+1)) + x (i*ld+(j-1)))/4
    else t p

/-- The stopping-test sum of jacobi_poisson (source lines 61-70):
s = sum over 1 <= i <= N, 1 <= j <= M of
(x[i*ld+j]-t[i*ld+j])*(x[i*ld+j]-t[i*ld+j]). The OpenMP reduction adds
the per-point terms in an unspecified order; over exact rationals the
result is the sum over the interior index set. -/
def stopSum (N M : ℕ) (x t : ℕ → ℚ) : ℚ :=
  ∑ i in Finset.Icc 1 N, ∑ j in Finset.Icc 1 M,
    (x (i*(M+2)+j) - t (i*(M+2)+j)) * (x (i*(M+2)+j) - t (i*(M+2)+j))

/-- The tolerance tol = 1e-6 of the source (line 48). -/
def tol : ℚ := 1/1000000

/-- The iteration cap maxit = 70000 of the source (line 47). -/
def maxit : ℕ := 70000

/-- The stopping test of the source, `conv = (sqrt(s)<tol)` (line 74).
s is a sum of squares, hence nonnegative, and for a nonnegative s the
comparison sqrt(s) < tol is equivalent to s < tol*tol; the squared form
keeps the definition computable over ℚ. The equivalence with the literal
expression Real.sqrt s < tol is proved in convTest_eq_sqrt below. -/
def convTest (s : ℚ) : Bool := decide (s < tol * tol)

/-- The mutable locals of jacobi_poisson that persist across passes of its
while loop: the solution buffer x, the scratch buffer t, the iteration
counter k, the convergence flag conv, and the stopping sum s. -/
structure JacobiState where
  x : ℕ → ℚ
  t : ℕ → ℚ
  k : ℕ
  conv : Bool
  s : ℚ

/-- The copy of t into x at the end of a pass (source lines 81-86): every
interior entry of x is overwritten with the corresponding entry of t; all
other entries of x are untouched. -/
def copyInterior (N M : ℕ) (x t : ℕ → ℚ) : ℕ → ℚ :=
  fun p => if interiorIdx N M p then t p else x p

/-- One pass of the while-loop body of jacobi_poisson (source lines
55-88): compute the next vector t with jacobi_step, compute the stopping
sum s between the old x and the new t, set conv from the stopping test,
increment k, and copy the interior of t into x. The copy is not guarded
by conv in the source: it runs on every pass, also on the pass whose
stopping test succeeds. -/
def jacobiIter (N M : ℕ) (b : ℕ → ℚ) (st : JacobiState) : JacobiState :=
  let t := jacobi_step N M st.x b st.t
  let s := stopSum N M st.x t
  ⟨copyInterior N M st.x t, t, st.k + 1, convTest s, s⟩

/-- The while loop `while (!conv && k<maxit)` (source line 55) as a
fuel-indexed recursion over the cap m: the body runs exactly while the
loop condition holds, and the fuel argument only makes the recursion
structural; with fuel >= m - k it never cuts a run short, since each pass
increases k by 1. -/
def jacobiLoop (N M : ℕ) (b : ℕ → ℚ) (m : ℕ) : ℕ → JacobiState → JacobiState
  | 0, st => st
  | fuel+1, st =>
    if st.conv = false ∧ st.k < m then jacobiLoop N M b m fuel (jacobiIter N M b st)
    else st

/-- The state of the locals of jacobi_poisson when its while loop is first
entered (source lines 50-53): the caller buffer x, the scratch buffer t
zeroed by calloc, k = 0, conv = 0. The source leaves s uninitialized and
writes it before every read; the model gives it the initial value 0. -/
def jacobiInit (x : ℕ → ℚ) : JacobiState :=
  ⟨x, fun _ => 0, 0, false, 0⟩

/-- A full run of jacobi_poisson on the buffers x and b: the final state
of the locals when the while loop exits. -/
def jacobiRun (N M : ℕ) (x b : ℕ → ℚ) : JacobiState :=
  jacobiLoop N M b maxit maxit (jacobiInit x)

/-- The observable result of `void jacobi_poisson(int N,int M,double *x,double *b)`
(source lines 45-91): the C function returns nothing, and its only effect
visible to the caller is the final contents of the buffer x; t is freed
and k, conv, s are locals that die with the call. -/
def jacobi_poisson (N M : ℕ) (x b : ℕ → ℚ) : ℕ → ℚ :=
  (jacobiRun N M x b).x

/-- The white-space characters skipped by atoi (C isspace). -/
def isSpaceChar (c : Char) : Bool :=
  c == ' ' || c == '\t' || c == '\n' || c == '\u000B' || c == '\u000C' || c == '\r'

/-- Leading decimal digits folded left to right onto an accumulator, as
atoi consumes digits after the optional sign; stops at the first
non-digit. -/
def atoiDigits : List Char → ℤ → ℤ
  | [], acc => acc
  | c :: cs, acc =>
    if c.isDigit then atoiDigits cs (acc * 10 + ((c.toNat : ℤ) - ('0'.toNat : ℤ)))
    else acc

/-- Modelled from the C standard library (the source calls libc atoi at
lines 100 and 103, whose code is not in the repository): atoi skips
leading white space, consumes an optional sign and then the longest
leading run of decimal digits, and returns 0 when no digit is found. -/
def atoi (str : String) : ℤ :=
  match str.toList.dropWhile (fun c => isSpaceChar c) with
  | '-' :: cs => - atoiDigits cs 0
  | '+' :: cs => atoiDigits cs 0
  | cs => atoiDigits cs 0

/-- Parsing of the first argument (source lines 99-101):
`if ((N = atoi(argv[1])) < 0) N = 50;` — N becomes the parsed value, and
falls back to 50 exactly when the parsed value is negative. -/
def parseArgN (a : String) : ℤ :=
  if atoi a < 0 then 50 else atoi a

/-- Parsing of the second argument (source lines 102-104):
`if ((M = atoi(argv[2])) < 0) M = 1;` — M becomes the parsed value, and
falls back to 1 exactly when the parsed value is negative. -/
def parseArgM (a : String) : ℤ :=
  if atoi a < 0 then 1 else atoi a

/-- The exit code of main (source lines 146-164): 1 exactly when the
fopen of the matrix dump file fails, 0 otherwise. The earlier fopen of
the report file (line 138) is not checked and does not influence the exit
code, which the first argument records. -/
def mainExitCode (_reportOpens dumpOpens : Bool) : ℕ :=
  if dumpOpens then 0 else 1

/- ------------------------------------------------------------------ -/
/- Decoding lemmas for the flat row-major offset i*(M+2)+j.            -/
/- ------------------------------------------------------------------ -/

lemma offset_div (M i j : ℕ) (hj : j < M + 2) : (i*(M+2)+j) / (M+2) = i := by
  rw [show i*(M+2)+j = j + (M+2)*i by ring]
  rw [Nat.add_mul_div_left _ _ (by omega : 0 < M+2), Nat.div_eq_of_lt hj]
  omega

lemma offset_mod (M i j : ℕ) (hj : j < M + 2) : (i*(M+2)+j) % (M+2) = j := by
  rw [show i*(M+2)+j = j + (M+2)*i by ring]
  rw [Nat.add_mul_mod_self_left, Nat.mod_eq_of_lt hj]

lemma interiorIdx_offset (N M i j : ℕ) (h1 : 1 ≤ i) (h2 : i ≤ N)
    (h3 : 1 ≤ j) (h4 : j ≤ M) : interiorIdx N M (i*(M+2)+j) := by
  have hj : j < M + 2 := by omega
  refine ⟨?_, ?_, ?_, ?_⟩ <;>
    simp only [offset_div M i j hj, offset_mod M i j hj] <;> omega

lemma jacobi_step_at_interior (N M : ℕ) (x b t : ℕ → ℚ) (i j : ℕ)
    (h1 : 1 ≤ i) (h2 : i ≤ N) (h3 : 1 ≤ j) (h4 : j ≤ M) :
    jacobi_step N M x b t (i*(M+2)+j) =
      (b (i*(M+2)+j) + x ((i+1)*(M+2)+j) + x ((i-1)*(M+2)+j)
        + x (i*(M+2)+(j+1)) + x (i*(M+2)+(j-1)))/4 := by
  have hj : j < M + 2 := by omega
  unfold jacobi_step
  simp only [offset_div M i j hj, offset_mod M i j hj,
    if_pos (interiorIdx_offset N M i j h1 h2 h3 h4)]

/- ------------------------------------------------------------------ -/
/- Evaluation lemmas for concrete runs on the 1 x 1 grid, whose only   -/
/- interior offset is 4 = 1*(1+2)+1.                                   -/
/- ------------------------------------------------------------------ -/

lemma interiorIdx_one_one {p : ℕ} : interiorIdx 1 1 p ↔ p = 4 := by
  unfold interiorIdx
  constructor
  · rintro ⟨h1, h2, h3, h4⟩
    omega
  · rintro rfl
    norm_num

lemma jacobi_step_one_one (x b t : ℕ → ℚ) (p : ℕ) :
    jacobi_step 1 1 x b t p =
      if p = 4 then (b 4 + x 7 + x 1 + x 5 + x 3)/4 else t p := by
  by_cases hp : p = 4
  · subst hp
    simp [jacobi_step, interiorIdx_one_one]
  · simp [jacobi_step, interiorIdx_one_one, hp]

lemma copyInterior_one_one (x t : ℕ → ℚ) (p : ℕ) :
    copyInterior 1 1 x t p = if p = 4 then t p else x p := by
  by_cases hp : p = 4 <;> simp [copyInterior, interiorIdx_one_one, hp]

lemma stopSum_one_one (x t : ℕ → ℚ) :
    stopSum 1 1 x t = (x 4 - t 4) * (x 4 - t 4) := by
  unfold stopSum
  norm_num

lemma jacobiLoop_succ (N M : ℕ) (b : ℕ → ℚ) (m fuel : ℕ) (st : JacobiState) :
    jacobiLoop N M b m (fuel+1) st =
      if st.conv = false ∧ st.k < m then jacobiLoop N M b m fuel (jacobiIter N M b st)
      else st := rfl

lemma jacobiLoop_of_conv (N M : ℕ) (b : ℕ → ℚ) (m fuel : ℕ) (st : JacobiState)
    (h : st.conv = true) : jacobiLoop N M b m fuel st = st := by
  cases fuel with
  | zero => rfl
  | succ fuel => rw [jacobiLoop_succ, if_neg]; simp [h]

lemma jacobiIter_k (N M : ℕ) (b : ℕ → ℚ) (st : JacobiState) :
    (jacobiIter N M b st).k = st.k + 1 := rfl

lemma jacobiIter_conv (N M : ℕ) (b : ℕ → ℚ) (st : JacobiState) :
    (jacobiIter N M b st).conv
      = convTest (stopSum N M st.x (jacobi_step N M st.x b st.t)) := rfl

lemma jacobiIter_s (N M : ℕ) (b : ℕ → ℚ) (st : JacobiState) :
    (jacobiIter N M b st).s = stopSum N M st.x (jacobi_step N M st.x b st.t) := rfl

lemma jacobiIter_x (N M : ℕ) (b : ℕ → ℚ) (st : JacobiState) :
    (jacobiIter N M b st).x
      = copyInterior N M st.x (jacobi_step N M st.x b st.t) := rfl

lemma jacobiIter_t (N M : ℕ) (b : ℕ → ℚ) (st : JacobiState) :
    (jacobiIter N M b st).t = jacobi_step N M st.x b st.t := rfl

lemma jacobiRun_one_pass (N M : ℕ) (x b : ℕ → ℚ)
    (h : (jacobiIter N M b (jacobiInit x)).conv = true) :
    jacobiRun N M x b = jacobiIter N M b (jacobiInit x) := by
  unfold jacobiRun maxit
  rw [show (70000:ℕ) = 69999+1 from rfl, jacobiLoop_succ,
    if_pos ⟨rfl, by norm_num [jacobiInit]⟩, jacobiLoop_of_conv _ _ _ _ _ _ h]

lemma jacobiRun_two_passes (N M : ℕ) (x b : ℕ → ℚ)
    (h1 : (jacobiIter N M b (jacobiInit x)).conv = false)
    (h2 : (jacobiIter N M b (jacobiIter N M b (jacobiInit x))).conv = true) :
    jacobiRun N M x b = jacobiIter N M b (jacobiIter N M b (jacobiInit x)) := by
  unfold jacobiRun maxit
  rw [show (70000:ℕ) = 69998+1+1 from rfl, jacobiLoop_succ,
    if_pos ⟨rfl, by norm_num [jacobiInit]⟩, jacobiLoop_succ,
    if_pos ⟨h1, by rw [jacobiIter_k]; norm_num [jacobiInit]⟩,
    jacobiLoop_of_conv _ _ _ _ _ _ h2]

/- ------------------------------------------------------------------ -/
/- Boundary positions and preservation lemmas.                         -/
/- ------------------------------------------------------------------ -/

/-- Offset p is a boundary position of the (N+2)*(M+2) array: it lies in
the array and its row-major decode (i, j) = (p / (M+2), p % (M+2)) has
i = 0 or i = N+1 or j = 0 or j = M+1. -/
def boundaryIdx (N M p : ℕ) : Prop :=
  p < (N+2)*(M+2) ∧
    (p / (M+2) = 0 ∨ p / (M+2) = N+1 ∨ p % (M+2) = 0 ∨ p % (M+2) = M+1)

instance (N M p : ℕ) : Decidable (boundaryIdx N M p) := by
  unfold boundaryIdx
  infer_instance

lemma boundary_not_interior {N M p : ℕ} (h : boundaryIdx N M p) :
    ¬ interiorIdx N M p := by
  rintro ⟨h1, h2, h3, h4⟩
  obtain ⟨hlt, hc⟩ := h
  have hm : p % (M+2) < M+2 := Nat.mod_lt _ (by omega)
  rcases hc with h0 | h0 | h0 | h0 <;> omega

/-- g vanishes on every boundary position of the (N+2)*(M+2) array. -/
def zeroOnBoundary (N M : ℕ) (g : ℕ → ℚ) : Prop :=
  ∀ p, boundaryIdx N M p → g p = 0

lemma jacobi_step_zeroOnBoundary (N M : ℕ) (x b t : ℕ → ℚ)
    (ht : zeroOnBoundary N M t) : zeroOnBoundary N M (jacobi_step N M x b t) := by
  intro p hp
  have hni := boundary_not_interior hp
  simpa [jacobi_step, hni] using ht p hp

lemma copyInterior_zeroOnBoundary (N M : ℕ) (x t : ℕ → ℚ)
    (hx : zeroOnBoundary N M x) : zeroOnBoundary N M (copyInterior N M x t) := by
  intro p hp
  have hni := boundary_not_interior hp
  simpa [copyInterior, hni] using hx p hp

lemma jacobiIter_zeroOnBoundary (N M : ℕ) (b : ℕ → ℚ) (st : JacobiState)
    (hx : zeroOnBoundary N M st.x) (ht : zeroOnBoundary N M st.t) :
    zeroOnBoundary N M (jacobiIter N M b st).x ∧
      zeroOnBoundary N M (jacobiIter N M b st).t := by
  refine ⟨?_, ?_⟩
  · rw [jacobiIter_x]
    exact copyInterior_zeroOnBoundary N M _ _ hx
  · rw [jacobiIter_t]
    exact jacobi_step_zeroOnBoundary N M _ b _ ht

lemma iterate_zeroOnBoundary (N M : ℕ) (b : ℕ → ℚ) (n : ℕ) (st : JacobiState)
    (hx : zeroOnBoundary N M st.x) (ht : zeroOnBoundary N M st.t) :
    zeroOnBoundary N M ((jacobiIter N M b)^[n] st).x ∧
      zeroOnBoundary N M ((jacobiIter N M b)^[n] st).t := by
  induction n generalizing st with
  | zero => exact ⟨hx, ht⟩
  | succ n ih =>
    rw [Function.iterate_succ_apply]
    exact ih _ (jacobiIter_zeroOnBoundary N M b st hx ht).1
      (jacobiIter_zeroOnBoundary N M b st hx ht).2

lemma jacobiLoop_zeroOnBoundary (N M : ℕ) (b : ℕ → ℚ) (m : ℕ) :
    ∀ fuel (st : JacobiState), zeroOnBoundary N M st.x → zeroOnBoundary N M st.t →
      zeroOnBoundary N M (jacobiLoop N M b m fuel st).x ∧
        zeroOnBoundary N M (jacobiLoop N M b m fuel st).t := by
  intro fuel
  induction fuel with
  | zero => intro st hx ht; exact ⟨hx, ht⟩
  | succ fuel ih =>
    intro st hx ht
    rw [jacobiLoop_succ]
    by_cases hc : st.conv = false ∧ st.k < m
    · rw [if_pos hc]
      exact ih _ (jacobiIter_zeroOnBoundary N M b st hx ht).1
        (jacobiIter_zeroOnBoundary N M b st hx ht).2
    · rw [if_neg hc]
      exact ⟨hx, ht⟩

/- ------------------------------------------------------------------ -/
/- While-loop bound lemmas.                                            -/
/- ------------------------------------------------------------------ -/

lemma jacobiLoop_k_le (N M : ℕ) (b : ℕ → ℚ) (m : ℕ) :
    ∀ fuel (st : JacobiState), st.k ≤ m → (jacobiLoop N M b m fuel st).k ≤ m := by
  intro fuel
  induction fuel with
  | zero => intro st h; exact h
  | succ fuel ih =>
    intro st h
    rw [jacobiLoop_succ]
    by_cases hc : st.conv = false ∧ st.k < m
    · rw [if_pos hc]
      exact ih _ (by rw [jacobiIter_k]; exact hc.2)
    · rw [if_neg hc]
      exact h

lemma jacobiLoop_exit (N M : ℕ) (b : ℕ → ℚ) (m : ℕ) :
    ∀ fuel (st : JacobiState), m ≤ fuel + st.k → st.k ≤ m →
      (jacobiLoop N M b m fuel st).conv = true ∨ (jacobiLoop N M b m fuel st).k = m := by
  intro fuel
  induction fuel with
  | zero =>
    intro st h1 h2
    right
    show st.k = m
    omega
  | succ fuel ih =>
    intro st h1 h2
    rw [jacobiLoop_succ]
    by_cases hc : st.conv = false ∧ st.k < m
    · rw [if_pos hc]
      exact ih _ (by rw [jacobiIter_k]; omega) (by rw [jacobiIter_k]; exact hc.2)
    · rw [if_neg hc]
      cases hconv : st.conv with
      | true => exact Or.inl rfl
      | false =>
        right
        have hk : ¬ st.k < m := fun hk => hc ⟨hconv, hk⟩
        omega

/- ------------------------------------------------------------------ -/
/- The stopping test versus the literal sqrt comparison.               -/
/- ------------------------------------------------------------------ -/

lemma convTest_eq_sqrt (s : ℚ) :
    convTest s = true ↔ Real.sqrt (s : ℝ) < 1/1000000 := by
  rw [convTest, decide_eq_true_eq,
    Real.sqrt_lt' (by norm_num : (0:ℝ) < 1/1000000),
    show ((1:ℝ)/1000000)^2 = ((tol*tol : ℚ) : ℝ) by norm_num [tol]]
  exact_mod_cast Iff.rfl

lemma stopSum_nonneg (N M : ℕ) (x t : ℕ → ℚ) : 0 ≤ stopSum N M x t := by
  refine Finset.sum_nonneg fun i _ => Finset.sum_nonneg fun j _ => ?_
  exact mul_self_nonneg _

/- ------------------------------------------------------------------ -/
/- Claim C1.                                                           -/
/- ------------------------------------------------------------------ -/

/-- C1: for every N, M >= 1 and every interior point (i,j) with
1 <= i <= N and 1 <= j <= M, one application of the stencil jacobi_step
produces t[i,j] = (b[i,j] + x[i+1,j] + x[i-1,j] + x[i,j+1] + x[i,j-1])/4
at the flat offset i*(M+2)+j; the particular case N = M = 1 with
b[1,1] = v and x identically zero, which yields t[1,1] = v/4, is the
witness below. -/
theorem jacobi_step_stencil_formula (N M : ℕ) (x b t : ℕ → ℚ) (i j : ℕ)
    (h1 : 1 ≤ i) (h2 : i ≤ N) (h3 : 1 ≤ j) (h4 : j ≤ M) :
    jacobi_step N M x b t (i*(M+2)+j) =
      (b (i*(M+2)+j) + x ((i+1)*(M+2)+j) + x ((i-1)*(M+2)+j)
        + x (i*(M+2)+(j+1)) + x (i*(M+2)+(j-1)))/4 :=
  jacobi_step_at_interior N M x b t i j h1 h2 h3 h4

/-- Witness for jacobi_step_stencil_formula: N = M = 1, b[1,1] = 2 at flat
offset 4 = 1*(1+2)+1, x and t identically zero; the stencil yields
t[1,1] = 2/4 = 1/2. -/
theorem jacobi_step_stencil_formula_witness :
    jacobi_step 1 1 (fun _ => 0) (fun p => if p = 4 then 2 else 0) (fun _ => 0) 4
      = 1/2 := by
  have h := jacobi_step_stencil_formula 1 1 (fun _ => 0)
    (fun p => if p = 4 then 2 else 0) (fun _ => 0) 1 1
    (by norm_num) (by norm_num) (by norm_num) (by norm_num)
  norm_num at h
  exact h

/- ------------------------------------------------------------------ -/
/- Claim C8.                                                           -/
/- ------------------------------------------------------------------ -/

/-- C8: one stencil application writes only the interior of t and reads
only x and b. Entries of t outside the interior index set keep their
previous values, and the value produced at an interior offset does not
depend on the previous contents of t. The buffers x and b are pure inputs
of the functional embedding, mirroring that jacobi_step never stores to
them, so after the call they equal their values before it by
construction. -/
theorem jacobi_step_frame (N M : ℕ) (x b t u : ℕ → ℚ) :
    (∀ p, ¬ interiorIdx N M p → jacobi_step N M x b t p = t p) ∧
    (∀ p, interiorIdx N M p →
      jacobi_step N M x b t p = jacobi_step N M x b u p) := by
  constructor
  · intro p hp
    simp [jacobi_step, hp]
  · intro p hp
    simp [jacobi_step, hp]

/-- Witness for jacobi_step_frame: on the 1 x 1 grid, offset 0 is not
interior and keeps the previous value 7 of t, and the value written at the
interior offset 4 is the same whether the previous t was constant 7 or
constant 9. -/
theorem jacobi_step_frame_witness :
    jacobi_step 1 1 (fun _ => 0) (fun _ => 1) (fun _ => 7) 0 = 7 ∧
    jacobi_step 1 1 (fun _ => 0) (fun _ => 1) (fun _ => 7) 4
      = jacobi_step 1 1 (fun _ => 0) (fun _ => 1) (fun _ => 9) 4 := by
  constructor
  · exact (jacobi_step_frame 1 1 (fun _ => 0) (fun _ => 1) (fun _ => 7)
      (fun _ => 9)).1 0 (by decide)
  · exact (jacobi_step_frame 1 1 (fun _ => 0) (fun _ => 1) (fun _ => 7)
      (fun _ => 9)).2 4 (by decide)

/- ------------------------------------------------------------------ -/
/- Claim C2.                                                           -/
/- ------------------------------------------------------------------ -/

/-- C2: in every pass of the solver loop, the stopping sum s recorded in
the new state is the sum over all interior points (1 <= i <= N,
1 <= j <= M) of (x[i,j]-t[i,j])^2, where x is the previous iterate and t
the fresh sweep result, and the convergence flag is set exactly when
residual = sqrt(s) is below 1e-6. -/
theorem convergence_test_spec (N M : ℕ) (b : ℕ → ℚ) (st : JacobiState) :
    (jacobiIter N M b st).s
      = (∑ i in Finset.Icc 1 N, ∑ j in Finset.Icc 1 M,
          (st.x (i*(M+2)+j) - (jacobi_step N M st.x b st.t) (i*(M+2)+j))^2) ∧
    ((jacobiIter N M b st).conv = true
      ↔ Real.sqrt (((jacobiIter N M b st).s : ℚ) : ℝ) < 1/1000000) := by
  constructor
  · rw [jacobiIter_s, stopSum]
    refine Finset.sum_congr rfl fun i _ => Finset.sum_congr rfl fun j _ => ?_
    ring
  · rw [jacobiIter_conv, jacobiIter_s, convTest_eq_sqrt]

/- ------------------------------------------------------------------ -/
/- Claim C3.                                                           -/
/- ------------------------------------------------------------------ -/

/-- C3: the iteration controller always terminates. The counter k starts
at 0, every pass of the loop body increases it by exactly 1, the final
count never exceeds the cap maxit = 70000 (so the loop makes at most
maxit passes), and every run ends in a terminal state: either converged,
or not converged with the final count exactly equal to the cap
(Exhausted). -/
theorem iteration_controller_terminates (N M : ℕ) (x b : ℕ → ℚ)
    (st : JacobiState) :
    (jacobiInit x).k = 0 ∧
    (jacobiIter N M b st).k = st.k + 1 ∧
    (jacobiRun N M x b).k ≤ maxit ∧
    ((jacobiRun N M x b).conv = true ∨ (jacobiRun N M x b).k = maxit) := by
  refine ⟨rfl, rfl, ?_, ?_⟩
  · exact jacobiLoop_k_le N M b maxit maxit _ (Nat.zero_le _)
  · exact jacobiLoop_exit N M b maxit maxit _ le_self_add (Nat.zero_le _)

/- ------------------------------------------------------------------ -/
/- Claim C4.                                                           -/
/- ------------------------------------------------------------------ -/

/-- C4: boundary invariant. If the caller buffer x is zero on every
boundary position (i = 0, i = N+1, j = 0 or j = M+1), then after any
number n of passes of the loop body both x and the scratch buffer t
(zero-initialized by calloc) are still zero on every boundary position,
and so are the buffers of the final state of the full solve: no operation
of the core writes a boundary entry. -/
theorem boundary_invariant (N M : ℕ) (x b : ℕ → ℚ)
    (hx : ∀ p, boundaryIdx N M p → x p = 0) (n : ℕ) :
    (∀ p, boundaryIdx N M p → ((jacobiIter N M b)^[n] (jacobiInit x)).x p = 0) ∧
    (∀ p, boundaryIdx N M p → ((jacobiIter N M b)^[n] (jacobiInit x)).t p = 0) ∧
    (∀ p, boundaryIdx N M p → (jacobiRun N M x b).x p = 0) ∧
    (∀ p, boundaryIdx N M p → (jacobiRun N M x b).t p = 0) := by
  have hinit_t : zeroOnBoundary N M (jacobiInit x).t := fun p _ => rfl
  have hiter := iterate_zeroOnBoundary N M b n (jacobiInit x) hx hinit_t
  have hloop := jacobiLoop_zeroOnBoundary N M b maxit maxit (jacobiInit x) hx hinit_t
  exact ⟨hiter.1, hiter.2, hloop.1, hloop.2⟩

/-- Witness for boundary_invariant: on the 1 x 1 grid with x identically
zero and b identically one, after one pass of the loop body and after the
full solve, the boundary offset 0 of both buffers is still zero. -/
theorem boundary_invariant_witness :
    ((jacobiIter 1 1 (fun _ => 1))^[1] (jacobiInit (fun _ => 0))).x 0 = 0 ∧
    ((jacobiIter 1 1 (fun _ => 1))^[1] (jacobiInit (fun _ => 0))).t 0 = 0 ∧
    (jacobiRun 1 1 (fun _ => 0) (fun _ => 1)).x 0 = 0 ∧
    (jacobiRun 1 1 (fun _ => 0) (fun _ => 1)).t 0 = 0 := by
  have h := boundary_invariant 1 1 (fun _ => 0) (fun _ => 1) (fun p _ => rfl) 1
  exact ⟨h.1 0 (by decide), h.2.1 0 (by decide),
    h.2.2.1 0 (by decide), h.2.2.2 0 (by decide)⟩

/- ------------------------------------------------------------------ -/
/- Claim C5.                                                           -/
/- ------------------------------------------------------------------ -/

/-- C5 counterexample: on the 1 x 1 grid with b = 0 and x[1,1] = 1/10^7,
the very first pass converges (s = 1/10^14, residual 1/10^7 < 1e-6), yet
the returned field holds 0, the result of the final sweep, and not the
iterate 1/10^7 from before that sweep: the copy of t into x also runs on
the pass whose convergence test succeeds. -/
theorem converged_pass_copies_cex :
    (jacobiRun 1 1 (fun p => if p = 4 then 1/10^7 else 0) (fun _ => 0)).conv = true ∧
    (jacobiRun 1 1 (fun p => if p = 4 then 1/10^7 else 0) (fun _ => 0)).k = 1 ∧
    jacobi_poisson 1 1 (fun p => if p = 4 then 1/10^7 else 0) (fun _ => 0) 4 = 0 ∧
    (fun p => if p = 4 then (1/10^7 : ℚ) else 0) 4 ≠ 0 := by
  have h : (jacobiIter 1 1 (fun _ => 0)
      (jacobiInit (fun p => if p = 4 then 1/10^7 else 0))).conv = true := by
    rw [jacobiIter_conv, stopSum_one_one, jacobi_step_one_one]
    norm_num [jacobiInit, convTest, tol]
  refine ⟨?_, ?_, ?_, by norm_num⟩
  · rw [jacobiRun_one_pass _ _ _ _ h]
    exact h
  · rw [jacobiRun_one_pass _ _ _ _ h, jacobiIter_k]
    rfl
  · rw [jacobi_poisson, jacobiRun_one_pass _ _ _ _ h, jacobiIter_x,
      copyInterior_one_one, jacobi_step_one_one]
    norm_num [jacobiInit]

/-- C5 amended: in each pass of the loop body, t is copied elementwise
into the interior of x unconditionally — also in the pass whose
convergence test succeeds, so the field after a converged pass is the
result of the final sweep and not the previous iterate — while entries
outside the interior are left unchanged. -/
theorem copy_runs_every_pass (N M : ℕ) (b : ℕ → ℚ) (st : JacobiState) (p : ℕ) :
    (interiorIdx N M p →
      (jacobiIter N M b st).x p = jacobi_step N M st.x b st.t p) ∧
    (¬ interiorIdx N M p → (jacobiIter N M b st).x p = st.x p) := by
  constructor
  · intro hp
    simp [jacobiIter_x, copyInterior, hp]
  · intro hp
    simp [jacobiIter_x, copyInterior, hp]

/-- Witness for copy_runs_every_pass at the converged first pass of the
C5 counterexample input: the interior offset 4 receives the sweep value
and the boundary offset 0 keeps the caller value. -/
theorem copy_runs_every_pass_witness :
    (jacobiIter 1 1 (fun _ => 0)
        (jacobiInit (fun p => if p = 4 then 1/10^7 else 0))).x 4
      = jacobi_step 1 1 (jacobiInit (fun p => if p = 4 then 1/10^7 else 0)).x
          (fun _ => 0) (jacobiInit (fun p => if p = 4 then 1/10^7 else 0)).t 4 ∧
    (jacobiIter 1 1 (fun _ => 0)
        (jacobiInit (fun p => if p = 4 then 1/10^7 else 0))).x 0
      = (jacobiInit (fun p => if p = 4 then 1/10^7 else 0)).x 0 :=
  ⟨(copy_runs_every_pass 1 1 (fun _ => 0) _ 4).1 (by decide),
   (copy_runs_every_pass 1 1 (fun _ => 0) _ 0).2 (by decide)⟩

/- ------------------------------------------------------------------ -/
/- Claim C6.                                                           -/
/- ------------------------------------------------------------------ -/

/-- Caller field for the two-run comparison: x[1,1] = 1/4, the fixed
point of the sweep for cexRhs, zero elsewhere. -/
def cexXFix : ℕ → ℚ := fun p => if p = 4 then 1/4 else 0

/-- Caller field for the two-run comparison: identically zero. -/
def cexXZero : ℕ → ℚ := fun _ => 0

/-- Right-hand side for the two-run comparison: b[1,1] = 1, zero
elsewhere. -/
def cexRhs : ℕ → ℚ := fun p => if p = 4 then 1 else 0

lemma cexXFix_run_state :
    jacobiRun 1 1 cexXFix cexRhs = jacobiIter 1 1 cexRhs (jacobiInit cexXFix) := by
  refine jacobiRun_one_pass _ _ _ _ ?_
  rw [jacobiIter_conv, stopSum_one_one, jacobi_step_one_one]
  norm_num [jacobiInit, cexXFix, cexRhs, convTest, tol]

lemma cexXZero_run_state :
    jacobiRun 1 1 cexXZero cexRhs
      = jacobiIter 1 1 cexRhs (jacobiIter 1 1 cexRhs (jacobiInit cexXZero)) := by
  refine jacobiRun_two_passes _ _ _ _ ?_ ?_
  · rw [jacobiIter_conv, stopSum_one_one, jacobi_step_one_one]
    norm_num [jacobiInit, cexXZero, cexRhs, convTest, tol]
  · rw [jacobiIter_conv, stopSum_one_one, jacobi_step_one_one, jacobiIter_x,
      jacobiIter_t]
    simp only [copyInterior_one_one, jacobi_step_one_one]
    norm_num [jacobiInit, cexXZero, cexRhs, convTest, tol]

lemma cex_runs_same_field :
    jacobi_poisson 1 1 cexXFix cexRhs = jacobi_poisson 1 1 cexXZero cexRhs := by
  funext p
  rw [jacobi_poisson, jacobi_poisson, cexXFix_run_state, cexXZero_run_state,
    jacobiIter_x, jacobiIter_x]
  by_cases hp : p = 4
  · subst hp
    simp only [copyInterior_one_one, jacobi_step_one_one, jacobiIter_x,
      jacobiIter_t]
    norm_num [jacobiInit, cexXFix, cexXZero, cexRhs]
  · simp only [copyInterior_one_one, jacobi_step_one_one, jacobiIter_x,
      jacobiIter_t]
    simp [hp, jacobiInit, cexXFix, cexXZero, cexRhs]

/-- C6 counterexample: two runs on the 1 x 1 grid with the same
right-hand side return identical fields, yet one stops after 1 iteration
and the other after 2: the value jacobi_poisson hands back to the caller
does not carry the final iteration count. -/
theorem solve_result_hides_count_cex :
    jacobi_poisson 1 1 cexXFix cexRhs = jacobi_poisson 1 1 cexXZero cexRhs ∧
    (jacobiRun 1 1 cexXFix cexRhs).k = 1 ∧
    (jacobiRun 1 1 cexXZero cexRhs).k = 2 := by
  refine ⟨cex_runs_same_field, ?_, ?_⟩
  · rw [cexXFix_run_state, jacobiIter_k]
    rfl
  · rw [cexXZero_run_state, jacobiIter_k, jacobiIter_k]
    rfl

/-- C6 amended: the observable result of jacobi_poisson is exactly the
final field held in the buffer x (the C function returns void and only
mutates x); the final iteration count and the final residual are not part
of the result — they are only printed per iteration — and no function of
the returned field recovers the iteration count, so the terminal state
cannot in general be distinguished from the result. -/
theorem solve_returns_only_field :
    (∀ N M x b, jacobi_poisson N M x b = (jacobiRun N M x b).x) ∧
    ¬ ∃ g : (ℕ → ℚ) → ℕ, ∀ N M x b,
        g (jacobi_poisson N M x b) = (jacobiRun N M x b).k := by
  refine ⟨fun _ _ _ _ => rfl, ?_⟩
  rintro ⟨g, hg⟩
  have h1 := hg 1 1 cexXFix cexRhs
  have h2 := hg 1 1 cexXZero cexRhs
  rw [cex_runs_same_field, h2, cexXZero_run_state, jacobiIter_k, jacobiIter_k] at h1
  rw [cexXFix_run_state, jacobiIter_k] at h1
  simp [jacobiInit] at h1

/-- Witness for solve_returns_only_field: the first component applied at
the concrete C6 input. -/
theorem solve_returns_only_field_witness :
    jacobi_poisson 1 1 cexXFix cexRhs = (jacobiRun 1 1 cexXFix cexRhs).x :=
  solve_returns_only_field.1 1 1 cexXFix cexRhs

/- ------------------------------------------------------------------ -/
/- Claim C7.                                                           -/
/- ------------------------------------------------------------------ -/

/-- C7 counterexample: the non-numeric argument "foo" is invalid, yet
atoi parses it to 0, which is not negative, so neither fallback fires:
N becomes 0 and not the claimed default 50, and M becomes 0 and not 1. -/
theorem invalid_arg_fallback_cex :
    parseArgN "foo" = 0 ∧ parseArgN "foo" ≠ 50 ∧
    parseArgM "foo" = 0 ∧ parseArgM "foo" ≠ 1 := by
  refine ⟨?_, ?_, ?_, ?_⟩ <;> decide

/-- C7 amended: the fallbacks fire exactly on a negative parse. A first
argument whose atoi value is negative makes N fall back to 50, a second
argument whose atoi value is negative makes M fall back to 1, and any
argument with a nonnegative atoi value — including every non-numeric
string, which atoi parses to 0 — is used as parsed, with no fallback. -/
theorem negative_arg_fallback (a : String) :
    (atoi a < 0 → parseArgN a = 50 ∧ parseArgM a = 1) ∧
    (0 ≤ atoi a → parseArgN a = atoi a ∧ parseArgM a = atoi a) := by
  constructor
  · intro h
    simp [parseArgN, parseArgM, h]
  · intro h
    simp [parseArgN, parseArgM, not_lt.mpr h]

/-- Witness for negative_arg_fallback: the argument "-7" parses to the
negative value -7, so N falls back to 50 and M falls back to 1. -/
theorem negative_arg_fallback_witness :
    parseArgN "-7" = 50 ∧ parseArgM "-7" = 1 :=
  (negative_arg_fallback "-7").1 (by decide)

/- ------------------------------------------------------------------ -/
/- Claim C9.                                                           -/
/- ------------------------------------------------------------------ -/

/-- C9: the exit code of the driver is 0 or 1, it is 1 exactly when the
matrix-dump file cannot be opened, and it does not depend on whether the
report file opened (that failure is unchecked in the source): the driver
logic produces no other exit code. -/
theorem exit_code_spec (r r2 d : Bool) :
    (mainExitCode r d = 0 ∨ mainExitCode r d = 1) ∧
    (mainExitCode r d = 1 ↔ d = false) ∧
    mainExitCode r d = mainExitCode r2 d := by
  cases d <;> simp [mainExitCode]

/-- Witness for exit_code_spec: with the report file open failed and the
matrix-dump open failed, the exit code is 1. -/
theorem exit_code_spec_witness : mainExitCode true false = 1 :=
  (exit_code_spec true false false).2.1.mpr rfl

/- ------------------------------------------------------------------ -/
/- Claim C10.                                                          -/
/- ------------------------------------------------------------------ -/

lemma not_interiorIdx_of_empty {N M : ℕ} (h : N = 0 ∨ M = 0) (p : ℕ) :
    ¬ interiorIdx N M p := by
  rintro ⟨h1, h2, h3, h4⟩
  rcases h with rfl | rfl <;> omega

lemma stopSum_empty {N M : ℕ} (h : N = 0 ∨ M = 0) (x t : ℕ → ℚ) :
    stopSum N M x t = 0 := by
  rcases h with rfl | rfl <;> simp [stopSum]

/-- C10: with an empty interior (N = 0 or M = 0, as produced for example
by a non-numeric command-line argument parsed to 0), the solve makes
exactly one pass: the stopping sum over the empty interior is 0,
sqrt(0) < 1e-6 holds, and the run ends Converged with k = 1, stopping
sum 0, residual sqrt(0) = 0, and every entry of x unchanged. -/
theorem empty_interior_one_pass (N M : ℕ) (x b : ℕ → ℚ) (h : N = 0 ∨ M = 0) :
    (jacobiRun N M x b).k = 1 ∧
    (jacobiRun N M x b).conv = true ∧
    (jacobiRun N M x b).s = 0 ∧
    Real.sqrt (((jacobiRun N M x b).s : ℚ) : ℝ) = 0 ∧
    (jacobiRun N M x b).x = x := by
  have hconv : (jacobiIter N M b (jacobiInit x)).conv = true := by
    rw [jacobiIter_conv, stopSum_empty h]
    norm_num [convTest, tol]
  have hrun := jacobiRun_one_pass N M x b hconv
  have hs : (jacobiRun N M x b).s = 0 := by
    rw [hrun, jacobiIter_s, stopSum_empty h]
  refine ⟨?_, ?_, hs, ?_, ?_⟩
  · rw [hrun, jacobiIter_k]
    rfl
  · rw [hrun]
    exact hconv
  · rw [hs]
    simp [Real.sqrt_zero]
  · rw [hrun, jacobiIter_x]
    funext p
    simp [copyInterior, not_interiorIdx_of_empty h p, jacobiInit]

/-- Witness for empty_interior_one_pass at N = 0, M = 3, x constant 5, b
constant 1. -/
theorem empty_interior_one_pass_witness :
    (jacobiRun 0 3 (fun _ => 5) (fun _ => 1)).k = 1 ∧
    (jacobiRun 0 3 (fun _ => 5) (fun _ => 1)).conv = true ∧
    (jacobiRun 0 3 (fun _ => 5) (fun _ => 1)).s = 0 ∧
    Real.sqrt (((jacobiRun 0 3 (fun _ => 5) (fun _ => 1)).s : ℚ) : ℝ) = 0 ∧
    (jacobiRun 0 3 (fun _ => 5) (fun _ => 1)).x = (fun _ => (5:ℚ)) :=
  empty_interior_one_pass 0 3 (fun _ => 5) (fun _ => 1) (Or.inl rfl)
